import Mathlib

/-!
# Verification of the elib scheduler/timer subsystem

Shallow embedding of the elib embedded-systems toolkit core:
the kernel task registry (`src/src/kernel.cpp`), the tick-driven timer
service (`timer.cpp`, snake_case variant), the virtual system clock
(`system_clock.cpp`), the elapsed-time tracker
(`include/elib/time/elapsed_timer.h`) and the bounded circular buffer
backing the event loop (`include/elib/circular_buffer.h`,
`include/elib/event_loop.h`).

Task and timer-callback identities are modelled as natural numbers
(standing for the C++ object addresses / closure identities).  The
`std::uint32_t` tick counter of `system_clock` is modelled as a natural
number below `2^32` with explicit wrap-around arithmetic, matching the
unsigned modular subtraction performed by
`elapsed_timer::elapsed() = Clock::now() - start_point_`.
-/

namespace Elib

/-! ## Kernel task registry (src/src/kernel.cpp)

The registry is `std::array<task_base*, N> tasks`, modelled as a
`List (Option TaskPtr)` of fixed length together with the persistent
round-robin cursor (`static std::size_t current_index`). -/

/-- A task address (`task_base*`). -/
abbrev TaskPtr := Nat

/-- Registry plus the persisted round-robin cursor of `process_tasks`. -/
structure KernelState where
  tasks : List (Option TaskPtr)
  cursor : Nat
  deriving Repr, DecidableEq

/-- `register_task`, step 2: occupy the first `nullptr` slot
(`for (auto& slot : tasks) if (slot == nullptr) { slot = &task; return true; }`).
Returns `none` when every slot is occupied. -/
def fill_first_free : List (Option TaskPtr) → TaskPtr → Option (List (Option TaskPtr))
  | [], _ => none
  | none :: rest, t => some (some t :: rest)
  | some a :: rest, t => (fill_first_free rest t).map (fun l => some a :: l)

/-- `kernel::register_task` (kernel.cpp:11-28): duplicate registration is an
idempotent success; otherwise the first free slot is occupied; `false` is
returned when the task is absent and the table is full. -/
def register_task (tasks : List (Option TaskPtr)) (t : TaskPtr) :
    List (Option TaskPtr) × Bool :=
  if some t ∈ tasks then (tasks, true)
  else
    match fill_first_free tasks t with
    | some tasks2 => (tasks2, true)
    | none => (tasks, false)

/-- `kernel::unregister_task` (kernel.cpp:30-40): clears the first slot that
holds the given address, no-op otherwise. -/
def unregister_task : List (Option TaskPtr) → TaskPtr → List (Option TaskPtr)
  | [], _ => []
  | slot :: rest, t =>
    if slot = some t then none :: rest else slot :: unregister_task rest t

/-- `kernel::impl::move_task` (kernel.cpp:47-57): repoints the first slot that
holds `from`'s address to `to`'s address, in place. -/
def move_task : List (Option TaskPtr) → TaskPtr → TaskPtr → List (Option TaskPtr)
  | [], _, _ => []
  | slot :: rest, f, t =>
    if slot = some f then some t :: rest else slot :: move_task rest f t

/-- The do-while body of `kernel::process_tasks` (kernel.cpp:59-79): examine
the slot at the cursor, advance the cursor (wrapping), dispatch the first
occupied slot found. The fuel argument bounds the scan to one full
revolution (`while (current_index != initial_index)`); at the top entry the
fuel is the table size, so fuel exhaustion coincides with the cursor having
returned to its initial value. -/
def process_tasks_loop (tasks : List (Option TaskPtr)) : Nat → Nat → Nat × Option TaskPtr
  | c, 0 => (c, none)
  | c, fuel + 1 =>
    let slot := tasks.getD c none
    let c2 := if c + 1 ≥ tasks.length then 0 else c + 1
    match slot with
    | some t => (c2, some t)
    | none => process_tasks_loop tasks c2 fuel

/-- `kernel::process_tasks` (kernel.cpp:59-79): round-robin dispatch of one
task. The dispatched task's address is returned (standing for
`task->run()`); the registry itself is not modified by the dispatch. -/
def process_tasks (s : KernelState) : KernelState × Option TaskPtr :=
  let r := process_tasks_loop s.tasks s.cursor s.tasks.length
  (⟨s.tasks, r.1⟩, r.2)

/-- Repeated calls to `process_tasks`, collecting the dispatched tasks in
order (the "run log" of the experiment). -/
def run_tasks : KernelState → Nat → List TaskPtr
  | _, 0 => []
  | s, m + 1 =>
    match process_tasks s with
    | (s2, some t) => t :: run_tasks s2 m
    | (s2, none) => run_tasks s2 m

/-- The registered tasks of a registry, in slot order. -/
def occupied (tasks : List (Option TaskPtr)) : List TaskPtr :=
  tasks.filterMap id

/-! ## Timer service (timer.cpp, snake_case variant in the sources)

The pool is `std::array<timer_handle, config::max_timer_num> timers`
(`max_timer_num = 10` by default) with the persisted scan cursor
`static std::size_t curr_index` of `process_timers`.  The system clock is
`volatile std::uint32_t sys_clock_tick` (rep `std::uint32_t`, period
milliseconds); `elapsed_timer::elapsed(d)` compares the wrap-around
unsigned difference `Clock::now() - start_point_` against the interval,
the interval value being converted to the clock's `uint32` representation
at the call. -/

/-- `2^32`, the modulus of the `std::uint32_t` tick counter. -/
def M32 : Nat := 4294967296

/-- Wrap-around `uint32` subtraction `a - b` for `a, b < 2^32`
(`system_clock::now() - start_point_`). -/
def wsub (a b : Nat) : Nat :=
  (a + (M32 - b)) % M32

/-- One slot of the timer pool (`struct timer_handle`, timer.cpp).
The elapsed tracker `elapsed_timer<clock>` is inlined as its two fields
`start_point_` (`elapsed_start`) and `is_active_` (`elapsed_active`);
the `std::function<void()>` callback is `none` when empty, otherwise the
identity of the stored closure. -/
structure timer_handle where
  registered : Bool
  active : Bool
  single_shot : Bool
  interval : Nat
  elapsed_start : Nat
  elapsed_active : Bool
  callback : Option Nat
  deriving Repr, DecidableEq

/-- A default-constructed `timer_handle{}`. -/
def empty_handle : timer_handle :=
  ⟨false, false, false, 0, 0, false, none⟩

/-- `empty_timer_id = std::numeric_limits<std::uint32_t>::max()`. -/
def empty_timer_id : Nat := 4294967295

/-- The firing condition of `process_timers`:
`curr_timer.registered && curr_timer.callback && curr_timer.active &&
curr_timer.elapsed.elapsed(curr_timer.interval)`, the last conjunct being
`(now - start_point_) >= interval` in `uint32` arithmetic. -/
def timer_due (now : Nat) (h : timer_handle) : Bool :=
  h.registered && h.callback.isSome && h.active &&
    decide (h.interval % M32 ≤ wsub now h.elapsed_start)

/-- The effect of a firing on the fired slot:
`curr_timer.elapsed.reset()` (start point := now, running flag untouched)
and, for a single-shot timer, `registered = false; active = false`. -/
def fire_handle (now : Nat) (h : timer_handle) : timer_handle :=
  if h.single_shot then
    { h with elapsed_start := now, registered := false, active := false }
  else
    { h with elapsed_start := now }

/-- Timer pool plus the persisted cursor of `process_timers`. -/
structure TimerState where
  timers : List timer_handle
  cursor : Nat
  deriving Repr, DecidableEq

/-- The do-while body of `timer::process_timers` (timer.cpp:178-209):
examine the slot at the cursor, advance the cursor (wrapping); if the slot
is due, invoke its callback, reset its elapsed tracker, free it when
single-shot and return immediately.  The result carries the fired slot
index and the invoked callback's identity.  As in `process_tasks_loop`,
the fuel equals the pool size at the top entry, making fuel exhaustion
coincide with one full revolution. -/
def process_timers_loop (now : Nat) (timers : List timer_handle) :
    Nat → Nat → List timer_handle × Nat × Option (Nat × Nat)
  | c, 0 => (timers, c, none)
  | c, fuel + 1 =>
    let h := timers.getD c empty_handle
    let c2 := if c + 1 ≥ timers.length then 0 else c + 1
    if timer_due now h then
      (timers.set c (fire_handle now h), c2, some (c, h.callback.getD 0))
    else
      process_timers_loop now timers c2 fuel

/-- `timer::process_timers` (timer.cpp:178-209). -/
def process_timers (now : Nat) (s : TimerState) :
    TimerState × Option (Nat × Nat) :=
  let r := process_timers_loop now s.timers s.cursor s.timers.length
  (⟨r.1, r.2.1⟩, r.2.2)

/-- The slot scan of `registerTimerImpl` (timer.cpp:134-156): the first
slot with `!timer.registered` receives the callback, interval and
single-shot flag and is marked registered; its other fields — in
particular the elapsed tracker — are left as they were. -/
def register_first_free (interval : Nat) (cb : Option Nat) (ss : Bool) :
    List timer_handle → Option (Nat × List timer_handle)
  | [] => none
  | h :: rest =>
    if h.registered then
      (register_first_free interval cb ss rest).map
        (fun p => (p.1 + 1, h :: p.2))
    else
      some (0,
        { h with
            callback := cb
            interval := interval
            single_shot := ss
            registered := true } :: rest)

/-- `registerTimerImpl` (timer.cpp:134-156): returns the allocated slot id,
or `empty_timer_id` on pool exhaustion. -/
def registerTimerImpl (timers : List timer_handle) (interval : Nat)
    (cb : Option Nat) (ss : Bool) : Nat × List timer_handle :=
  match register_first_free interval cb ss timers with
  | some (i, ts) => (i, ts)
  | none => (empty_timer_id, timers)

/-- The static invalid sentinel of `get_handle` (timer.cpp:119-132), with
`invalid.registered = false` re-established on every lookup. -/
def invalid_handle : timer_handle :=
  { empty_handle with registered := false }

/-- `get_handle` (timer.cpp:119-132): in-range indices resolve to the pool
slot; out-of-range indices resolve to the static invalid sentinel instead
of indexing out of bounds. -/
def get_handle (timers : List timer_handle) (index : Nat) : timer_handle :=
  if index < timers.length then timers.getD index empty_handle
  else invalid_handle

/-- `timer::register_timer` (timer.cpp:158-163): plain registration, slot
not yet active. -/
def register_timer (timers : List timer_handle) (interval : Nat)
    (cb : Option Nat) : Nat × List timer_handle :=
  registerTimerImpl timers interval cb false

/-- `timer::single_shot` (timer.cpp:165-176): registration through
`registerTimerImpl` with the single-shot flag, then — on success —
`get_handle(tid).active = true`.  Nothing else of the slot is touched. -/
def timer_single_shot (timers : List timer_handle) (interval : Nat)
    (cb : Option Nat) : Bool × List timer_handle :=
  let r := registerTimerImpl timers interval cb true
  if r.1 ≠ empty_timer_id then
    (true, r.2.set r.1 { get_handle r.2 r.1 with active := true })
  else
    (false, r.2)

/-- `timer::start` (timer.cpp:280-285): `thandle.active = true;
thandle.elapsed.start()` through `get_handle(id_)`; a write through the
out-of-range sentinel leaves the pool unchanged. -/
def timer_start (now : Nat) (timers : List timer_handle) (id : Nat) :
    List timer_handle :=
  if id < timers.length then
    timers.set id { timers.getD id empty_handle with
      active := true, elapsed_start := now, elapsed_active := true }
  else timers

/-- `timer::valid` (timer.cpp:300-306). -/
def timer_valid (timers : List timer_handle) (id : Nat) : Bool :=
  if id ≠ empty_timer_id then (get_handle timers id).registered
  else false

/-- `timer::running` (timer.cpp:292-298). -/
def timer_running (timers : List timer_handle) (id : Nat) : Bool :=
  if timer_valid timers id then (get_handle timers id).active
  else false

/-! ## Bounded circular buffer (include/elib/circular_buffer.h) and the
event-loop queue (include/elib/event_loop.h)

`circular_buffer<T, Capacity>` stores its elements in a fixed
`std::array` storage with `first_`/`last_` element pointers and a size
counter; the pointer arithmetic of `detail::increment` (advance and wrap
at `storage_end`) is translated to cell indices.  The storage is a total
map over cell indices (cells outside the live region hold stale values,
exactly as in the C++ array). -/

/-- `circular_buffer<T, Capacity>`: storage cells, the `first_` and
`last_` cell indices, and `size_`. -/
structure circular_buffer (α : Type) (n : Nat) where
  data : Nat → α
  first : Nat
  last : Nat
  size : Nat

/-- A default-constructed buffer: `first_ = last_ = data_.data()`,
`size_ = 0`, default-initialised storage. -/
def cb_init (α : Type) (n : Nat) (dflt : α) : circular_buffer α n :=
  ⟨fun _ => dflt, 0, 0, 0⟩

/-- `detail::increment(it, begin, end)`: `if (++it == end) it = begin`,
on cell indices. -/
def cb_increment (n i : Nat) : Nat :=
  if i + 1 = n then 0 else i + 1

/-- `circular_buffer::push_back` (circular_buffer.h:539-550): fails on a
full buffer; otherwise writes through `last_`, advances it and grows the
size. -/
def push_back {α : Type} {n : Nat} (v : α) (b : circular_buffer α n) :
    circular_buffer α n × Bool :=
  if b.size = n then (b, false)
  else
    (⟨fun i => if i = b.last then v else b.data i,
      b.first, cb_increment n b.last, b.size + 1⟩, true)

/-- `circular_buffer::pop_front` (circular_buffer.h:602-611): fails on an
empty buffer; otherwise advances `first_` and shrinks the size. -/
def pop_front {α : Type} {n : Nat} (b : circular_buffer α n) :
    circular_buffer α n × Bool :=
  if b.size = 0 then (b, false)
  else (⟨b.data, cb_increment n b.first, b.last, b.size - 1⟩, true)

/-- The stored contents of the buffer, front to back: the `size_` cells
starting at `first_`, wrapping around the storage. -/
def cb_toList {α : Type} {n : Nat} (b : circular_buffer α n) : List α :=
  (List.range b.size).map (fun i => b.data ((b.first + i) % n))

/-- Sequential `push_back` calls, collecting each call's result. -/
def push_all {α : Type} {n : Nat} :
    circular_buffer α n → List α → circular_buffer α n × List Bool
  | b, [] => (b, [])
  | b, v :: rest =>
    let r := push_back v b
    let r2 := push_all r.1 rest
    (r2.1, r.2 :: r2.2)

/-- The part of `event_loop<Event, EventQueueSize>` the capacity claims
concern: its bounded event queue
(`circular_buffer<Event, EventQueueSize> events_`). -/
structure event_loop (α : Type) (n : Nat) where
  events : circular_buffer α n

/-- `event_loop::push` (event_loop.h:148-160): delegates to the queue's
bounded push (`return events_.push(event)`). -/
def el_push {α : Type} {n : Nat} (v : α) (l : event_loop α n) :
    event_loop α n × Bool :=
  let r := push_back v l.events
  (⟨r.1⟩, r.2)

/-! ### Concrete experiment scenarios from the spec's testable properties

`clock_tick_process` is one step of the test harness
(`advance_time(1)` in tests/timer.cpp): `system_clock::increment()` — the
`uint32` counter advancing with wrap-around — followed by one
`process_timers()` call, accumulating the number of callback invocations
observed. -/

/-- One tick of the experiment driver: advance the clock, process timers
once, count the fired callback (if any). -/
def clock_tick_process (s : (Nat × TimerState) × Nat) : (Nat × TimerState) × Nat :=
  let clk := (s.1.1 + 1) % M32
  let r := process_timers clk s.1.2
  ((clk, r.1), s.2 + if r.2.isSome then 1 else 0)

/-- C3 scenario start: fresh default pool of `max_timer_num = 10` slots,
one periodic timer of interval 30 registered and started at tick 0,
process cursor at its initial value 0. -/
def c3_init : TimerState :=
  ⟨timer_start 0
      (register_timer (List.replicate 10 empty_handle) 30 (some 0)).2
      (register_timer (List.replicate 10 empty_handle) 30 (some 0)).1, 0⟩

/-- C3 experiment: `T` ticks of increment-then-process, with the running
count of callback invocations. -/
def c3_run : Nat → (Nat × TimerState) × Nat
  | 0 => ((0, c3_init), 0)
  | T + 1 => clock_tick_process (c3_run T)

/-- The C3 timer slot with a given elapsed-tracker start point. -/
def c3_slot (start : Nat) : timer_handle :=
  ⟨true, true, false, 30, start, true, some 0⟩

/-- The C3 pool: the periodic timer in slot 0, nine free slots. -/
def c3_pool (start : Nat) : List timer_handle :=
  c3_slot start :: List.replicate 9 empty_handle

/-- The C3 cursor: 0 until the first firing (tick 30), 1 afterwards. -/
def c3_cursor (T : Nat) : Nat :=
  if T < 30 then 0 else 1

/-- C4 scenario start: fresh default pool, `single_shot(50, cb)` invoked
at tick 0. -/
def c4_init : TimerState :=
  ⟨(timer_single_shot (List.replicate 10 empty_handle) 50 (some 0)).2, 0⟩

/-- C4 experiment: `T` ticks of increment-then-process. -/
def c4_run : Nat → (Nat × TimerState) × Nat
  | 0 => ((0, c4_init), 0)
  | T + 1 => clock_tick_process (c4_run T)

/-- The C4 single-shot slot as `single_shot` leaves it: active and
single-shot, elapsed tracker untouched (start point 0, not running). -/
def c4_live_slot : timer_handle :=
  ⟨true, true, true, 50, 0, false, some 0⟩

/-- The C4 slot after its firing at tick 50: freed by `process_timers`,
elapsed start point reset to 50. -/
def c4_dead_slot : timer_handle :=
  ⟨false, false, true, 50, 50, false, some 0⟩

/-! ### Lemmas about `register_task`, `unregister_task` and `move_task` -/

theorem fill_first_free_eq_none {tasks : List (Option TaskPtr)} {t : TaskPtr} :
    fill_first_free tasks t = none ↔ none ∉ tasks := by
  induction tasks with
  | nil => simp [fill_first_free]
  | cons slot rest ih =>
    cases slot with
    | none => simp [fill_first_free]
    | some a => simpa [fill_first_free] using ih

theorem fill_first_free_some {tasks : List (Option TaskPtr)} {t : TaskPtr}
    {l : List (Option TaskPtr)} (h : fill_first_free tasks t = some l) :
    ∃ k, tasks.get? k = some none ∧ (∀ j < k, tasks.get? j ≠ some none) ∧
      l = tasks.set k (some t) := by
  induction tasks generalizing l with
  | nil => simp [fill_first_free] at h
  | cons slot rest ih =>
    cases slot with
    | none =>
      refine ⟨0, by simp, by simp, ?_⟩
      simp [fill_first_free] at h
      simp [← h]
    | some a =>
      simp only [fill_first_free, Option.map_eq_some'] at h
      obtain ⟨l', hl', rfl⟩ := h
      obtain ⟨k, hk1, hk2, rfl⟩ := ih hl'
      refine ⟨k + 1, by simpa using hk1, ?_, by simp⟩
      intro j hj
      cases j with
      | zero => simp
      | succ j' => simpa using hk2 j' (by omega)

theorem move_task_eq_set {tasks : List (Option TaskPtr)} {f : TaskPtr}
    (t : TaskPtr) (h : some f ∈ tasks) :
    ∃ k, tasks.get? k = some (some f) ∧
      move_task tasks f t = tasks.set k (some t) := by
  induction tasks with
  | nil => simp at h
  | cons slot rest ih =>
    by_cases hs : slot = some f
    · exact ⟨0, by simp [hs], by simp [move_task, hs]⟩
    · have hm : some f ∈ rest := by
        rcases List.mem_cons.mp h with h1 | h1
        · exact absurd h1.symm hs
        · exact h1
      obtain ⟨k, hk1, hk2⟩ := ih hm
      exact ⟨k + 1, by simpa using hk1, by simp [move_task, hs, hk2]⟩

theorem move_task_not_mem {tasks : List (Option TaskPtr)} {f t : TaskPtr}
    (hcount : tasks.count (some f) ≤ 1) (hne : f ≠ t) :
    some f ∉ move_task tasks f t := by
  induction tasks with
  | nil => simp [move_task]
  | cons slot rest ih =>
    by_cases hs : slot = some f
    · subst hs
      rw [List.count_cons_self] at hcount
      have hnm : some f ∉ rest := by
        rw [← List.count_eq_zero]
        omega
      have hstep : move_task (some f :: rest) f t = some t :: rest := by
        simp [move_task]
      rw [hstep, List.mem_cons]
      rintro (heq | hmem)
      · exact hne (Option.some.inj heq)
      · exact hnm hmem
    · have hc : rest.count (some f) ≤ 1 := by
        rw [List.count_cons] at hcount
        omega
      have hstep : move_task (slot :: rest) f t = slot :: move_task rest f t := by
        simp [move_task, hs]
      rw [hstep, List.mem_cons]
      rintro (heq | hmem)
      · exact hs heq.symm
      · exact ih hc hmem

theorem process_tasks_loop_mem {tasks : List (Option TaskPtr)} :
    ∀ fuel c c' t, process_tasks_loop tasks c fuel = (c', some t) →
      some t ∈ tasks := by
  intro fuel
  induction fuel with
  | zero => intro c c' t h; simp [process_tasks_loop] at h
  | succ fuel ih =>
    intro c c' t h
    simp only [process_tasks_loop] at h
    rcases hg : tasks.getD c none with _ | x
    · rw [hg] at h
      exact ih _ _ _ h
    · rw [hg] at h
      have hx : x = t := by
        simp at h
        exact h.2
      subst hx
      by_cases hc : c < tasks.length
      · rw [List.getD_eq_getElem tasks none hc] at hg
        exact hg ▸ List.getElem_mem hc
      · rw [List.getD_eq_default tasks none (by omega)] at hg
        cases hg

theorem process_tasks_run_mem {s : KernelState} {t : TaskPtr}
    (h : (process_tasks s).2 = some t) : some t ∈ s.tasks := by
  have := @process_tasks_loop_mem s.tasks s.tasks.length s.cursor
    (process_tasks_loop s.tasks s.cursor s.tasks.length).1 t
  apply this
  have hp : process_tasks s =
      (⟨s.tasks, (process_tasks_loop s.tasks s.cursor s.tasks.length).1⟩,
        (process_tasks_loop s.tasks s.cursor s.tasks.length).2) := rfl
  rw [hp] at h
  simp at h
  exact h ▸ rfl

/-! ### Claim C6 — register_task contract -/

/-- C6: for a task pointer already present in the registry, `register_task`
returns `true` and leaves the registry unchanged; for a task not present it
stores the pointer in the first null slot and returns `true`; it returns
`false` if and only if the task is not present and every slot of the table
is occupied. -/
theorem register_task_contract (tasks : List (Option TaskPtr)) (t : TaskPtr) :
    (some t ∈ tasks → register_task tasks t = (tasks, true)) ∧
    (some t ∉ tasks → none ∈ tasks →
      ∃ k, tasks.get? k = some none ∧ (∀ j < k, tasks.get? j ≠ some none) ∧
        register_task tasks t = (tasks.set k (some t), true)) ∧
    ((register_task tasks t).2 = false ↔ (some t ∉ tasks ∧ none ∉ tasks)) := by
  refine ⟨fun h => by simp [register_task, h], ?_, ?_⟩
  · intro h1 h2
    rcases hf : fill_first_free tasks t with _ | l
    · exact absurd (fill_first_free_eq_none.mp hf) (by simpa using h2)
    · obtain ⟨k, hk1, hk2, rfl⟩ := fill_first_free_some hf
      exact ⟨k, hk1, hk2, by simp [register_task, h1, hf]⟩
  · by_cases h1 : some t ∈ tasks
    · simp [register_task, h1]
    · rcases hf : fill_first_free tasks t with _ | l
      · have := fill_first_free_eq_none.mp hf
        simp [register_task, h1, hf, this]
      · have : none ∈ tasks := by
          by_contra hn
          rw [← fill_first_free_eq_none (t := t)] at hn
          rw [hf] at hn; cases hn
        simp [register_task, h1, hf, this]

/-- Witness for C6 at concrete registries. -/
theorem register_task_contract_witness :
    (register_task [some 5, none, none] 5 = ([some 5, none, none], true)) ∧
    (∃ k, [some 5, none, none].get? k = some none ∧
      (∀ j < k, ([some 5, none, none] : List (Option TaskPtr)).get? j ≠ some none) ∧
      register_task [some 5, none, none] 7 =
        ([some 5, none, none].set k (some 7), true)) ∧
    ((register_task [some 5, some 6] 7).2 = false ↔
      (some 7 ∉ ([some 5, some 6] : List (Option TaskPtr)) ∧
        none ∉ ([some 5, some 6] : List (Option TaskPtr)))) :=
  ⟨(register_task_contract [some 5, none, none] 5).1 (by decide),
   (register_task_contract [some 5, none, none] 7).2.1 (by decide) (by decide),
   (register_task_contract [some 5, some 6] 7).2.2⟩

/-! ### Claim C5 — move-safety by pointer patch -/

/-- C5: for a task registered in the kernel registry (present in exactly one
slot, as `register_task` guarantees), `impl::move_task` — invoked by the
task wrapper's move constructor/assignment — repoints the slot holding the
source address to the destination address in place: same slot index, every
other slot unchanged, no slot holds the old address afterwards, and a
subsequent `process_tasks` dispatch never runs the old address. -/
theorem move_task_pointer_patch (tasks : List (Option TaskPtr)) (f t : TaskPtr)
    (hreg : tasks.count (some f) = 1) (hne : f ≠ t) :
    ∃ k, tasks.get? k = some (some f) ∧
      move_task tasks f t = tasks.set k (some t) ∧
      (∀ j, j ≠ k → (move_task tasks f t).get? j = tasks.get? j) ∧
      some f ∉ move_task tasks f t ∧
      ∀ c, (process_tasks ⟨move_task tasks f t, c⟩).2 ≠ some f := by
  have hmem : some f ∈ tasks := by
    rw [← List.count_pos_iff]
    omega
  obtain ⟨k, hk1, hk2⟩ := move_task_eq_set t hmem
  have hnm : some f ∉ move_task tasks f t :=
    move_task_not_mem (by omega) hne
  refine ⟨k, hk1, hk2, ?_, hnm, ?_⟩
  · intro j hj
    rw [hk2]
    exact List.get?_set_ne (some t) tasks (Ne.symm hj)
  · intro c hcontra
    exact hnm (process_tasks_run_mem hcontra)

/-! ### Claim C1 — round-robin fairness of `process_tasks`

The scan of `process_tasks` examines the slots in cyclic order starting at
the cursor, i.e. in the order of `tasks.rotate cursor`.  `firstSome` is the
specification of "first occupied slot of that scan". -/

/-- Position and value of the first occupied slot of a slot list. -/
def firstSome : List (Option TaskPtr) → Option (Nat × TaskPtr)
  | [] => none
  | none :: rest => (firstSome rest).map (fun p => (p.1 + 1, p.2))
  | some a :: _ => some (0, a)

theorem firstSome_eq_none {L : List (Option TaskPtr)} :
    firstSome L = none ↔ ∀ x ∈ L, x = none := by
  induction L with
  | nil => simp [firstSome]
  | cons slot rest ih =>
    cases slot with
    | none => simpa [firstSome] using ih
    | some a => simp [firstSome]

theorem firstSome_decomp {L : List (Option TaskPtr)} {j : Nat} {t : TaskPtr}
    (h : firstSome L = some (j, t)) :
    ∃ A B, L = A ++ some t :: B ∧ A.length = j ∧ ∀ x ∈ A, x = none := by
  induction L generalizing j with
  | nil => simp [firstSome] at h
  | cons slot rest ih =>
    cases slot with
    | none =>
      simp only [firstSome, Option.map_eq_some'] at h
      obtain ⟨⟨j', t'⟩, hj', heq⟩ := h
      simp only [Prod.mk.injEq] at heq
      obtain ⟨hj, ht⟩ := heq
      subst hj; subst ht
      obtain ⟨A, B, hAB, hlen, hA⟩ := ih hj'
      exact ⟨none :: A, B, by simp [hAB], by simp [hlen], by simpa using hA⟩
    | some a =>
      simp only [firstSome, Option.some.injEq, Prod.mk.injEq] at h
      exact ⟨[], rest, by simp [h.2], by simp [← h.1], by simp⟩

theorem occupied_all_none {A : List (Option TaskPtr)} (h : ∀ x ∈ A, x = none) :
    occupied A = [] :=
  List.filterMap_eq_nil.mpr (by simpa using h)

theorem occupied_append (X Y : List (Option TaskPtr)) :
    occupied (X ++ Y) = occupied X ++ occupied Y := by
  simp [occupied]

theorem occupied_cons_some (t : TaskPtr) (B : List (Option TaskPtr)) :
    occupied (some t :: B) = t :: occupied B := rfl

theorem cursor_advance_eq_mod {n c : Nat} (hc : c < n) :
    (if c + 1 ≥ n then 0 else c + 1) = (c + 1) % n := by
  by_cases h : c + 1 ≥ n
  · have heq : c + 1 = n := by omega
    simp [h, heq, Nat.mod_self]
  · have hlt : c + 1 < n := by omega
    simp [h, Nat.mod_eq_of_lt hlt]

/-- The scan loop of `process_tasks`, characterised through the rotated
slot list: with fuel `f` it examines the first `f` slots of
`tasks.rotate c`, dispatches the first occupied one (leaving the cursor one
past it) and otherwise advances the cursor by `f` slots. -/
theorem process_tasks_loop_spec (tasks : List (Option TaskPtr)) :
    ∀ fuel c, c < tasks.length → fuel ≤ tasks.length →
      process_tasks_loop tasks c fuel =
        match firstSome ((tasks.rotate c).take fuel) with
        | some (j, t) => ((c + j + 1) % tasks.length, some t)
        | none => ((c + fuel) % tasks.length, none) := by
  intro fuel
  induction fuel with
  | zero =>
    intro c hc _
    simp [process_tasks_loop, firstSome, Nat.mod_eq_of_lt hc]
  | succ fuel ih =>
    intro c hc hfuel
    have hn : 0 < tasks.length := by omega
    have hlr : (tasks.rotate c).length = tasks.length := List.length_rotate tasks c
    cases hrot : tasks.rotate c with
    | nil => rw [hrot] at hlr; simp at hlr; omega
    | cons hd tl =>
      have hhd : hd = tasks.getD c none := by
        have h1 : (tasks.rotate c)[0]? = some hd := by rw [hrot]; simp
        rw [List.getElem?_rotate hn] at h1
        have h2 : (0 + c) % tasks.length = c := by
          rw [Nat.zero_add, Nat.mod_eq_of_lt hc]
        rw [h2, List.getElem?_eq_getElem hc] at h1
        rw [List.getD_eq_getElem tasks none hc]
        exact (Option.some.inj h1).symm
      have htl_len : tl.length = tasks.length - 1 := by
        rw [hrot] at hlr; simp at hlr; omega
      have hrot1 : tasks.rotate ((c + 1) % tasks.length) = tl ++ [hd] := by
        rw [List.rotate_mod, ← List.rotate_rotate, hrot,
          List.rotate_cons_succ, List.rotate_zero]
      have htake2 : (tasks.rotate ((c + 1) % tasks.length)).take fuel =
          tl.take fuel := by
        rw [hrot1]
        exact List.take_append_of_le_length (by omega)
      simp only [List.take_succ_cons]
      simp only [process_tasks_loop, cursor_advance_eq_mod hc, ← hhd]
      cases hd with
      | none =>
        rw [ih ((c + 1) % tasks.length) (Nat.mod_lt _ hn) (by omega), htake2]
        rcases hfs : firstSome (tl.take fuel) with _ | p
        · have hmod : ((c + 1) % tasks.length + fuel) % tasks.length =
              (c + (fuel + 1)) % tasks.length := by
            rw [Nat.mod_add_mod]
            congr 1
            omega
          simp [firstSome, hfs, hmod]
        · obtain ⟨j, t⟩ := p
          have hmod : ((c + 1) % tasks.length + j + 1) % tasks.length =
              (c + (j + 1) + 1) % tasks.length := by
            have h1 : (c + 1) % tasks.length + j + 1 =
                (c + 1) % tasks.length + (j + 1) := by omega
            rw [h1, Nat.mod_add_mod]
            congr 1
            omega
          simp [firstSome, hfs, hmod]
      | some t =>
        simp [firstSome]

/-- One `process_tasks` call, through the rotated-list view: with
`firstSome (tasks.rotate c) = some (j, t)`, the call dispatches `t` and
leaves the cursor at `(c + j + 1) % n`. -/
theorem process_tasks_spec {tasks : List (Option TaskPtr)} {c j : Nat}
    {t : TaskPtr} (hc : c < tasks.length)
    (hfs : firstSome (tasks.rotate c) = some (j, t)) :
    process_tasks ⟨tasks, c⟩ =
      (⟨tasks, (c + j + 1) % tasks.length⟩, some t) := by
  have hspec := process_tasks_loop_spec tasks tasks.length c hc le_rfl
  have htake : (tasks.rotate c).take tasks.length = tasks.rotate c := by
    rw [← List.length_rotate tasks c]
    exact List.take_length (tasks.rotate c)
  rw [htake, hfs] at hspec
  simp only [process_tasks, hspec]

/-- Over `m ≤ K` calls (where `K` counts the registered tasks), the
dispatch log of `process_tasks` is the first `m` registered tasks in cyclic
slot order starting at the cursor. -/
theorem run_tasks_take (tasks : List (Option TaskPtr)) :
    ∀ m c, c < tasks.length → m ≤ (occupied (tasks.rotate c)).length →
      run_tasks ⟨tasks, c⟩ m = (occupied (tasks.rotate c)).take m := by
  intro m
  induction m with
  | zero => intro c _ _; simp [run_tasks]
  | succ m ih =>
    intro c hc hm
    have hn : 0 < tasks.length := by omega
    have hne : firstSome (tasks.rotate c) ≠ none := by
      intro hno
      have hall := firstSome_eq_none.mp hno
      have : occupied (tasks.rotate c) = [] := occupied_all_none hall
      rw [this] at hm
      simp at hm
    rcases hfs : firstSome (tasks.rotate c) with _ | p
    · exact absurd hfs hne
    obtain ⟨j, t⟩ := p
    obtain ⟨A, B, hdec, hlen, hA⟩ := firstSome_decomp hfs
    have hocc : occupied (tasks.rotate c) = t :: occupied B := by
      rw [hdec, occupied_append, occupied_all_none hA, occupied_cons_some]
      rfl
    have hdec2 : tasks.rotate c = (A ++ [some t]) ++ B := by
      rw [hdec]; simp
    have hlen2 : (A ++ [some t]).length = j + 1 := by simp [hlen]
    have hjlt : j + 1 ≤ tasks.length := by
      have := List.length_rotate tasks c
      rw [hdec2] at this
      simp at this
      omega
    set c2 := (c + j + 1) % tasks.length with hc2
    have hc2lt : c2 < tasks.length := Nat.mod_lt _ hn
    have hrot2 : tasks.rotate c2 = B ++ (A ++ [some t]) := by
      have hsplit : c + j + 1 = c + (j + 1) := by omega
      rw [hc2, List.rotate_mod, hsplit, ← List.rotate_rotate, hdec2]
      rw [List.rotate_eq_drop_append_take
        (by rw [List.length_append, hlen2]; omega)]
      rw [← hlen2, List.drop_left, List.take_left]
    have hocc2 : occupied (tasks.rotate c2) = occupied B ++ [t] := by
      rw [hrot2, occupied_append, occupied_append, occupied_all_none hA]
      rfl
    have hproc := process_tasks_spec hc hfs
    have hlen_occ : (occupied (tasks.rotate c)).length =
        (occupied B).length + 1 := by rw [hocc]; rfl
    have hm2 : m ≤ (occupied (tasks.rotate c2)).length := by
      rw [hocc2]
      simp
      omega
    have hstep : run_tasks ⟨tasks, c⟩ (m + 1) =
        t :: run_tasks ⟨tasks, c2⟩ m := by
      simp [run_tasks, hproc]
    rw [hstep, ih c2 hc2lt hm2, hocc2, hocc]
    rw [List.take_append_of_le_length (by omega)]
    rfl

/-- C1: round-robin fairness of the task dispatcher.  For a registry with
`N` registered tasks (no duplicate pointers, as `register_task`
guarantees) and any in-range cursor, after `N` calls to `process_tasks`
every registered task has run at least once, and no task has run more than
once more than any other task. -/
theorem process_tasks_round_robin_fairness (tasks : List (Option TaskPtr))
    (c : Nat) (hc : c < tasks.length) (hnd : (occupied tasks).Nodup) :
    ∀ t, some t ∈ tasks →
      1 ≤ (run_tasks ⟨tasks, c⟩ (occupied tasks).length).count t ∧
      ∀ u, some u ∈ tasks →
        (run_tasks ⟨tasks, c⟩ (occupied tasks).length).count t ≤
          (run_tasks ⟨tasks, c⟩ (occupied tasks).length).count u + 1 := by
  have hperm : List.Perm (occupied (tasks.rotate c)) (occupied tasks) :=
    (List.rotate_perm tasks c).filterMap id
  have hlen : (occupied (tasks.rotate c)).length = (occupied tasks).length :=
    hperm.length_eq
  have hrun : run_tasks ⟨tasks, c⟩ (occupied tasks).length =
      occupied (tasks.rotate c) := by
    rw [run_tasks_take tasks (occupied tasks).length c hc (by omega), ← hlen]
    exact List.take_length _
  have hcount : ∀ v, some v ∈ tasks →
      (run_tasks ⟨tasks, c⟩ (occupied tasks).length).count v = 1 := by
    intro v hv
    rw [hrun, hperm.count_eq]
    have hmem : v ∈ occupied tasks := by
      simp only [occupied, List.mem_filterMap, id]
      exact ⟨some v, hv, rfl⟩
    have hle : (occupied tasks).count v ≤ 1 :=
      List.nodup_iff_count_le_one.mp hnd v
    have hge : 1 ≤ (occupied tasks).count v := List.count_pos_iff.mpr hmem
    omega
  intro t ht
  refine ⟨by rw [hcount t ht], fun u hu => by rw [hcount t ht, hcount u hu]; omega⟩

/-- Witness for C1: registry `[some 2, none, some 5, some 9]`, cursor 2,
three calls. -/
theorem process_tasks_round_robin_fairness_witness :
    1 ≤ (run_tasks ⟨[some 2, none, some 5, some 9], 2⟩
      (occupied [some 2, none, some 5, some 9]).length).count 5 ∧
    (run_tasks ⟨[some 2, none, some 5, some 9], 2⟩
      (occupied [some 2, none, some 5, some 9]).length).count 5 ≤
      (run_tasks ⟨[some 2, none, some 5, some 9], 2⟩
        (occupied [some 2, none, some 5, some 9]).length).count 9 + 1 :=
  ⟨(process_tasks_round_robin_fairness [some 2, none, some 5, some 9] 2
      (by decide) (by decide) 5 (by decide)).1,
   (process_tasks_round_robin_fairness [some 2, none, some 5, some 9] 2
      (by decide) (by decide) 5 (by decide)).2 9 (by decide)⟩

/-- Witness for C5: registry `[some 3, some 8, none]`, moving task 8 to
address 4. -/
theorem move_task_pointer_patch_witness :
    ∃ k, ([some 3, some 8, none] : List (Option TaskPtr)).get? k = some (some 8) ∧
      move_task [some 3, some 8, none] 8 4 = [some 3, some 8, none].set k (some 4) ∧
      (∀ j, j ≠ k → (move_task [some 3, some 8, none] 8 4).get? j =
        ([some 3, some 8, none] : List (Option TaskPtr)).get? j) ∧
      some 8 ∉ move_task [some 3, some 8, none] 8 4 ∧
      ∀ c, (process_tasks ⟨move_task [some 3, some 8, none] 8 4, c⟩).2 ≠ some 8 :=
  move_task_pointer_patch [some 3, some 8, none] 8 4 (by decide) (by decide)


/-! ### Lemmas about the `process_timers` scan -/

theorem cycle_cover {n c i : Nat} (hc : c < n) (hi : i < n) :
    ∃ k, k < n ∧ (c + k) % n = i := by
  refine ⟨(n + i - c) % n, Nat.mod_lt _ (by omega), ?_⟩
  have h1 : (n + i - c) % n ≡ (n + i - c) [MOD n] := Nat.mod_modEq _ _
  have h2 : c + (n + i - c) % n ≡ c + (n + i - c) [MOD n] := h1.add_left c
  have h3 : c + (n + i - c) = n + i := by omega
  calc (c + (n + i - c) % n) % n = (c + (n + i - c)) % n := h2
    _ = (n + i) % n := by rw [h3]
    _ = i % n := by rw [Nat.add_comm, Nat.add_mod_right]
    _ = i := Nat.mod_eq_of_lt hi

theorem process_timers_loop_succ (now : Nat) (tmrs : List timer_handle)
    (c fuel : Nat) :
    process_timers_loop now tmrs c (fuel + 1) =
      if timer_due now (tmrs.getD c empty_handle) then
        (tmrs.set c (fire_handle now (tmrs.getD c empty_handle)),
          (if c + 1 ≥ tmrs.length then 0 else c + 1),
          some (c, (tmrs.getD c empty_handle).callback.getD 0))
      else
        process_timers_loop now tmrs
          (if c + 1 ≥ tmrs.length then 0 else c + 1) fuel := rfl

theorem process_timers_loop_none {now : Nat} {tmrs : List timer_handle} :
    ∀ fuel c, c < tmrs.length →
      (process_timers_loop now tmrs c fuel).2.2 = none →
      process_timers_loop now tmrs c fuel =
        (tmrs, (c + fuel) % tmrs.length, none) ∧
      ∀ k < fuel,
        timer_due now (tmrs.getD ((c + k) % tmrs.length) empty_handle) = false := by
  intro fuel
  induction fuel with
  | zero =>
    intro c hc _
    refine ⟨?_, by omega⟩
    simp [process_timers_loop, Nat.mod_eq_of_lt hc]
  | succ fuel ih =>
    intro c hc hres
    have hn : 0 < tmrs.length := by omega
    by_cases hdue : timer_due now (tmrs.getD c empty_handle) = true
    · exfalso
      rw [process_timers_loop_succ, if_pos hdue] at hres
      simp at hres
    · have hdue2 : timer_due now (tmrs.getD c empty_handle) = false := by
        simpa using hdue
      have hstep : process_timers_loop now tmrs c (fuel + 1) =
          process_timers_loop now tmrs ((c + 1) % tmrs.length) fuel := by
        rw [process_timers_loop_succ, if_neg (by simpa using hdue2),
          cursor_advance_eq_mod hc]
      rw [hstep] at hres ⊢
      obtain ⟨heq, hall⟩ := ih ((c + 1) % tmrs.length) (Nat.mod_lt _ hn) hres
      have hcur : ((c + 1) % tmrs.length + fuel) % tmrs.length =
          (c + (fuel + 1)) % tmrs.length := by
        rw [Nat.mod_add_mod]
        congr 1
        omega
      refine ⟨by rw [heq, hcur], ?_⟩
      intro k hk
      cases k with
      | zero =>
        simpa [Nat.mod_eq_of_lt hc] using hdue2
      | succ k2 =>
        have hidx : ((c + 1) % tmrs.length + k2) % tmrs.length =
            (c + (k2 + 1)) % tmrs.length := by
          rw [Nat.mod_add_mod]
          congr 1
          omega
        have := hall k2 (by omega)
        rwa [hidx] at this

theorem process_timers_loop_some {now : Nat} {tmrs : List timer_handle} :
    ∀ fuel c j cb, c < tmrs.length →
      (process_timers_loop now tmrs c fuel).2.2 = some (j, cb) →
      j < tmrs.length ∧
      timer_due now (tmrs.getD j empty_handle) = true ∧
      (tmrs.getD j empty_handle).callback = some cb ∧
      process_timers_loop now tmrs c fuel =
        (tmrs.set j (fire_handle now (tmrs.getD j empty_handle)),
          (j + 1) % tmrs.length, some (j, cb)) := by
  intro fuel
  induction fuel with
  | zero => intro c j cb _ hres; simp [process_timers_loop] at hres
  | succ fuel ih =>
    intro c j cb hc hres
    have hn : 0 < tmrs.length := by omega
    by_cases hdue : timer_due now (tmrs.getD c empty_handle) = true
    · have hstep : process_timers_loop now tmrs c (fuel + 1) =
          (tmrs.set c (fire_handle now (tmrs.getD c empty_handle)),
            (c + 1) % tmrs.length,
            some (c, (tmrs.getD c empty_handle).callback.getD 0)) := by
        rw [process_timers_loop_succ, if_pos hdue, cursor_advance_eq_mod hc]
      rw [hstep] at hres
      simp only [Option.some.injEq, Prod.mk.injEq] at hres
      obtain ⟨hj, hcb⟩ := hres
      subst hj
      subst hcb
      have hsome : (tmrs.getD c empty_handle).callback.isSome = true := by
        simp only [timer_due, Bool.and_eq_true] at hdue
        exact hdue.1.1.2
      obtain ⟨v, hv⟩ := Option.isSome_iff_exists.mp hsome
      refine ⟨hc, hdue, ?_, hstep⟩
      rw [hv]
      simp
    · have hdue2 : timer_due now (tmrs.getD c empty_handle) = false := by
        simpa using hdue
      have hstep : process_timers_loop now tmrs c (fuel + 1) =
          process_timers_loop now tmrs ((c + 1) % tmrs.length) fuel := by
        rw [process_timers_loop_succ, if_neg (by simpa using hdue2),
          cursor_advance_eq_mod hc]
      rw [hstep] at hres ⊢
      exact ih ((c + 1) % tmrs.length) j cb (Nat.mod_lt _ hn) hres

theorem process_timers_loop_finds {now : Nat} {tmrs : List timer_handle}
    {i : Nat} (hi : i < tmrs.length)
    (hdue : timer_due now (tmrs.getD i empty_handle) = true)
    (hothers : ∀ k < tmrs.length, k ≠ i →
      timer_due now (tmrs.getD k empty_handle) = false) :
    ∀ fuel c, c < tmrs.length → (∃ k, k < fuel ∧ (c + k) % tmrs.length = i) →
      process_timers_loop now tmrs c fuel =
        (tmrs.set i (fire_handle now (tmrs.getD i empty_handle)),
          (i + 1) % tmrs.length,
          some (i, (tmrs.getD i empty_handle).callback.getD 0)) := by
  intro fuel
  induction fuel with
  | zero => intro c _ ⟨k, hk, _⟩; omega
  | succ fuel ih =>
    intro c hc ⟨k, hklt, hki⟩
    have hn : 0 < tmrs.length := by omega
    by_cases hci : c = i
    · subst hci
      rw [process_timers_loop_succ, if_pos hdue, cursor_advance_eq_mod hc]
    · have hdue2 : timer_due now (tmrs.getD c empty_handle) = false :=
        hothers c hc hci
      have hstep : process_timers_loop now tmrs c (fuel + 1) =
          process_timers_loop now tmrs ((c + 1) % tmrs.length) fuel := by
        rw [process_timers_loop_succ, if_neg (by simpa using hdue2),
          cursor_advance_eq_mod hc]
      rw [hstep]
      apply ih ((c + 1) % tmrs.length) (Nat.mod_lt _ hn)
      cases k with
      | zero =>
        exfalso
        rw [Nat.add_zero, Nat.mod_eq_of_lt hc] at hki
        exact hci hki
      | succ k2 =>
        refine ⟨k2, by omega, ?_⟩
        rw [Nat.mod_add_mod]
        rw [show c + 1 + k2 = c + (k2 + 1) by omega]
        exact hki

theorem process_timers_loop_idle {now : Nat} {tmrs : List timer_handle}
    (hnone : ∀ k < tmrs.length,
      timer_due now (tmrs.getD k empty_handle) = false) :
    ∀ fuel c, c < tmrs.length →
      process_timers_loop now tmrs c fuel =
        (tmrs, (c + fuel) % tmrs.length, none) := by
  intro fuel
  induction fuel with
  | zero =>
    intro c hc
    simp [process_timers_loop, Nat.mod_eq_of_lt hc]
  | succ fuel ih =>
    intro c hc
    have hn : 0 < tmrs.length := by omega
    have hdue2 : timer_due now (tmrs.getD c empty_handle) = false :=
      hnone c hc
    have hstep : process_timers_loop now tmrs c (fuel + 1) =
        process_timers_loop now tmrs ((c + 1) % tmrs.length) fuel := by
      rw [process_timers_loop_succ, if_neg (by simpa using hdue2),
        cursor_advance_eq_mod hc]
    rw [hstep, ih ((c + 1) % tmrs.length) (Nat.mod_lt _ hn)]
    have hcur : ((c + 1) % tmrs.length + fuel) % tmrs.length =
        (c + (fuel + 1)) % tmrs.length := by
      rw [Nat.mod_add_mod]
      congr 1
      omega
    rw [hcur]

/-- `process_timers` when no slot is due: one full idle revolution, state
untouched, no callback invoked. -/
theorem process_timers_no_due {now : Nat} {s : TimerState}
    (hc : s.cursor < s.timers.length)
    (hnone : ∀ k < s.timers.length,
      timer_due now (s.timers.getD k empty_handle) = false) :
    process_timers now s = (s, none) := by
  have h := process_timers_loop_idle hnone s.timers.length s.cursor hc
  have hcur : (s.cursor + s.timers.length) % s.timers.length = s.cursor := by
    rw [Nat.add_mod_right, Nat.mod_eq_of_lt hc]
  simp [process_timers, h, hcur]

/-- `process_timers` when exactly one slot is due: that slot fires, is
updated by `fire_handle`, the cursor lands one past it. -/
theorem process_timers_unique_due {now : Nat} {s : TimerState} {i : Nat}
    (hc : s.cursor < s.timers.length) (hi : i < s.timers.length)
    (hdue : timer_due now (s.timers.getD i empty_handle) = true)
    (hothers : ∀ k < s.timers.length, k ≠ i →
      timer_due now (s.timers.getD k empty_handle) = false) :
    process_timers now s =
      (⟨s.timers.set i (fire_handle now (s.timers.getD i empty_handle)),
        (i + 1) % s.timers.length⟩,
        some (i, (s.timers.getD i empty_handle).callback.getD 0)) := by
  have hcov := cycle_cover hc hi
  have h := process_timers_loop_finds hi hdue hothers s.timers.length
    s.cursor hc hcov
  simp [process_timers, h]

theorem getD_set_ne {l : List timer_handle} {j i : Nat} (h : j ≠ i)
    (v : timer_handle) :
    (l.set j v).getD i empty_handle = l.getD i empty_handle := by
  by_cases hi : i < l.length
  · rw [List.getD_eq_getElem _ _ (by simpa using hi),
      List.getD_eq_getElem _ _ hi]
    exact List.getElem_set_ne h _
  · rw [List.getD_eq_default _ _ (by simpa using hi),
      List.getD_eq_default _ _ (by omega)]

/-! ### Claim C2 — at most one timer firing per `process_timers` call -/

/-- C2, counterexample to the claim as stated: a slot that is registered,
active and whose elapsed time has reached its interval, but whose callback
is the empty `std::function`, is *not* fired — `process_timers` invokes
nothing, resets nothing, frees nothing and leaves the state unchanged,
because the firing condition also requires `curr_timer.callback` to be
non-empty. -/
theorem process_timers_due_without_callback_counterexample :
    (timer_handle.registered ⟨true, true, false, 10, 0, true, none⟩ = true ∧
      timer_handle.active ⟨true, true, false, 10, 0, true, none⟩ = true ∧
      timer_handle.interval ⟨true, true, false, 10, 0, true, none⟩ % M32 ≤
        wsub 50 (timer_handle.elapsed_start ⟨true, true, false, 10, 0, true, none⟩)) ∧
    process_timers 50
        ⟨[⟨true, true, false, 10, 0, true, none⟩, empty_handle], 0⟩ =
      (⟨[⟨true, true, false, 10, 0, true, none⟩, empty_handle], 0⟩, none) := by
  decide

/-- C2 (amended): per `process_timers` call at most one timer fires — on
finding a slot that is registered, active, **with a non-empty callback**,
and whose elapsed time has reached its interval, the call invokes that
slot's callback exactly once, resets its elapsed tracker, additionally
deactivates and frees the slot if single-shot (`fire_handle`), leaves
every other slot unchanged and returns immediately; if no such slot
exists, the scan stops after one full revolution with no callback invoked
and no state change. -/
theorem process_timers_at_most_one_firing (now : Nat) (s : TimerState)
    (hc : s.cursor < s.timers.length) :
    ((process_timers now s).2 = none →
      (process_timers now s).1 = s ∧
      ∀ k < s.timers.length,
        timer_due now (s.timers.getD k empty_handle) = false) ∧
    (∀ j cb, (process_timers now s).2 = some (j, cb) →
      j < s.timers.length ∧
      (s.timers.getD j empty_handle).registered = true ∧
      (s.timers.getD j empty_handle).active = true ∧
      (s.timers.getD j empty_handle).callback = some cb ∧
      (s.timers.getD j empty_handle).interval % M32 ≤
        wsub now (s.timers.getD j empty_handle).elapsed_start ∧
      (process_timers now s).1.timers =
        s.timers.set j (fire_handle now (s.timers.getD j empty_handle)) ∧
      (process_timers now s).1.cursor = (j + 1) % s.timers.length ∧
      ∀ k, k ≠ j → (process_timers now s).1.timers.getD k empty_handle =
        s.timers.getD k empty_handle) := by
  constructor
  · intro hres
    have hloop : (process_timers_loop now s.timers s.cursor
        s.timers.length).2.2 = none := hres
    obtain ⟨heq, hall⟩ :=
      process_timers_loop_none s.timers.length s.cursor hc hloop
    constructor
    · have hcur : (s.cursor + s.timers.length) % s.timers.length =
          s.cursor := by
        rw [Nat.add_mod_right, Nat.mod_eq_of_lt hc]
      simp [process_timers, heq, hcur]
    · intro k hk
      obtain ⟨k2, hk2, hk2i⟩ := cycle_cover hc hk
      have := hall k2 hk2
      rwa [hk2i] at this
  · intro j cb hres
    have hloop : (process_timers_loop now s.timers s.cursor
        s.timers.length).2.2 = some (j, cb) := hres
    obtain ⟨hj, hdue, hcb, heq⟩ :=
      process_timers_loop_some s.timers.length s.cursor j cb hc hloop
    have hdue2 := hdue
    simp only [timer_due, Bool.and_eq_true, decide_eq_true_eq] at hdue2
    refine ⟨hj, hdue2.1.1.1, hdue2.1.2, hcb, hdue2.2, ?_, ?_, ?_⟩
    · simp [process_timers, heq]
    · simp [process_timers, heq]
    · intro k hk
      have hnew : (process_timers now s).1.timers =
          s.timers.set j (fire_handle now (s.timers.getD j empty_handle)) := by
        simp [process_timers, heq]
      rw [hnew]
      exact getD_set_ne (fun hjk => hk hjk.symm) _

/-- Witness for C2 (amended), on a pool whose slot 1 is due with callback
identity 7 while slot 0 is due with an empty callback: the call fires
slot 1 exactly, applying `fire_handle` to it and leaving slot 0 alone. -/
theorem process_timers_at_most_one_firing_witness :
    1 < ([⟨true, true, false, 10, 0, true, none⟩,
        ⟨true, true, false, 10, 0, true, some 7⟩] : List timer_handle).length ∧
    (process_timers 50
        ⟨[⟨true, true, false, 10, 0, true, none⟩,
          ⟨true, true, false, 10, 0, true, some 7⟩], 0⟩).1.timers =
      [⟨true, true, false, 10, 0, true, none⟩,
        ⟨true, true, false, 10, 0, true, some 7⟩].set 1
        (fire_handle 50
          ([⟨true, true, false, 10, 0, true, none⟩,
            ⟨true, true, false, 10, 0, true, some 7⟩].getD 1 empty_handle)) :=
  ⟨by decide,
    ((process_timers_at_most_one_firing 50
      ⟨[⟨true, true, false, 10, 0, true, none⟩,
        ⟨true, true, false, 10, 0, true, some 7⟩], 0⟩
      (by decide)).2 1 7 (by decide)).2.2.2.2.2.1⟩

/-! ### Claim C7 — timer-scan cursor progression -/

/-- C7, counterexample to the claim as stated: on a pool with no due timer
(here the all-default pool of 10 slots) the cursor does not advance by one
slot — it completes a full revolution and ends exactly where it started. -/
theorem process_timers_cursor_counterexample :
    (process_timers 0 ⟨List.replicate 10 empty_handle, 0⟩).1.cursor = 0 ∧
    (0 + 1) % (List.replicate 10 empty_handle : List timer_handle).length
      = 1 := by
  decide

/-- C7 (amended): the persisted cursor of `process_timers` advances one
slot per *examined* slot, not one slot per call: when a timer fires, the
call leaves the cursor one slot past the fired slot; when no timer fires,
the scan completes one full revolution and the cursor returns to its
starting value. -/
theorem process_timers_cursor_progression (now : Nat) (s : TimerState)
    (hc : s.cursor < s.timers.length) :
    ((process_timers now s).2 = none →
      (process_timers now s).1.cursor = s.cursor) ∧
    (∀ j cb, (process_timers now s).2 = some (j, cb) →
      (process_timers now s).1.cursor = (j + 1) % s.timers.length) := by
  have h := process_timers_at_most_one_firing now s hc
  constructor
  · intro hres
    rw [(h.1 hres).1]
  · intro j cb hres
    exact ((h.2 j cb hres).2.2.2.2.2.2).1

/-- Witness for C7 (amended): idle pool keeps the cursor, firing pool
leaves it one past the fired slot. -/
theorem process_timers_cursor_progression_witness :
    (process_timers 0 ⟨List.replicate 10 empty_handle, 3⟩).1.cursor = 3 ∧
    (process_timers 50
        ⟨[empty_handle, ⟨true, true, false, 10, 0, true, some 7⟩], 0⟩).1.cursor
      = (1 + 1) %
        ([empty_handle,
          ⟨true, true, false, 10, 0, true, some 7⟩] : List timer_handle).length :=
  ⟨(process_timers_cursor_progression 0
      ⟨List.replicate 10 empty_handle, 3⟩ (by decide)).1 (by decide),
   (process_timers_cursor_progression 50
      ⟨[empty_handle, ⟨true, true, false, 10, 0, true, some 7⟩], 0⟩
      (by decide)).2 1 7 (by decide)⟩

/-! ### Claim C9 — safe invalid-handle access -/

/-- C9: a timer-handle operation invoked with an out-of-range or sentinel
(empty) id resolves to the static default/invalid sentinel object instead
of indexing out of bounds, so `valid()` and `running()` return false and
the pool is never accessed out of range.  (The hypothesis
`timers.length ≤ empty_timer_id` is the code's own
`static_assert(config::max_timer_num <= numeric_limits<id_type>::max())`.) -/
theorem invalid_handle_access_safe (timers : List timer_handle) (id : Nat)
    (hlen : timers.length ≤ empty_timer_id)
    (h : timers.length ≤ id ∨ id = empty_timer_id) :
    get_handle timers id = invalid_handle ∧
    timer_valid timers id = false ∧
    timer_running timers id = false := by
  have hor : timers.length ≤ id := by
    rcases h with h1 | h1
    · exact h1
    · omega
  have hget : get_handle timers id = invalid_handle := by
    simp [get_handle, Nat.not_lt.mpr hor]
  refine ⟨hget, ?_, ?_⟩
  · simp [timer_valid, hget, invalid_handle, empty_handle]
  · simp [timer_running, timer_valid, hget, invalid_handle, empty_handle]

/-- Witness for C9 at a concrete pool, out-of-range id 99 and sentinel id. -/
theorem invalid_handle_access_safe_witness :
    (get_handle (List.replicate 10 empty_handle) 99 = invalid_handle ∧
      timer_valid (List.replicate 10 empty_handle) 99 = false ∧
      timer_running (List.replicate 10 empty_handle) 99 = false) ∧
    (get_handle (List.replicate 10 empty_handle) empty_timer_id
        = invalid_handle ∧
      timer_valid (List.replicate 10 empty_handle) empty_timer_id = false ∧
      timer_running (List.replicate 10 empty_handle) empty_timer_id
        = false) :=
  ⟨invalid_handle_access_safe (List.replicate 10 empty_handle) 99
      (by decide) (Or.inl (by decide)),
   invalid_handle_access_safe (List.replicate 10 empty_handle) empty_timer_id
      (by decide) (Or.inr rfl)⟩

/-! ### Claim C10 — a due timer with an empty callback never fires -/

/-- C10: in any `process_timers` call, a slot whose callback is the empty
function object is never the one that fires — it is skipped without being
invoked, reset or freed (its slot is left fully unchanged) — and the scan
continues past it: whenever some slot of the pool is due (registered,
active, non-empty callback, elapsed ≥ interval), the call still fires one. -/
theorem process_timers_skips_empty_callback (now : Nat) (s : TimerState)
    (hc : s.cursor < s.timers.length) (i : Nat)
    (hcb : (s.timers.getD i empty_handle).callback = none) :
    (process_timers now s).1.timers.getD i empty_handle =
      s.timers.getD i empty_handle ∧
    (∀ j cb, (process_timers now s).2 = some (j, cb) →
      j ≠ i ∧ (s.timers.getD j empty_handle).callback = some cb) ∧
    ((∃ k, k < s.timers.length ∧
        timer_due now (s.timers.getD k empty_handle) = true) →
      (process_timers now s).2 ≠ none) := by
  have h := process_timers_at_most_one_firing now s hc
  have hfired : ∀ j cb, (process_timers now s).2 = some (j, cb) →
      j ≠ i ∧ (s.timers.getD j empty_handle).callback = some cb := by
    intro j cb hres
    obtain ⟨_, _, _, hjcb, _⟩ := h.2 j cb hres
    refine ⟨?_, hjcb⟩
    intro hji
    rw [hji, hcb] at hjcb
    cases hjcb
  refine ⟨?_, hfired, ?_⟩
  · rcases hres : (process_timers now s).2 with _ | p
    · rw [(h.1 hres).1]
    · obtain ⟨j, cb⟩ := p
      obtain ⟨hji, _⟩ := hfired j cb hres
      exact (h.2 j cb hres).2.2.2.2.2.2.2 i (fun hik => hji hik.symm)
  · rintro ⟨k, hk, hkdue⟩ hres
    have := (h.1 hres).2 k hk
    rw [this] at hkdue
    cases hkdue

/-- Witness for C10: slot 0 due with empty callback is skipped unchanged,
and the pool still fires (slot 1). -/
theorem process_timers_skips_empty_callback_witness :
    (process_timers 50
        ⟨[⟨true, true, false, 10, 0, true, none⟩,
          ⟨true, true, false, 10, 0, true, some 7⟩], 0⟩).1.timers.getD 0
        empty_handle =
      [⟨true, true, false, 10, 0, true, none⟩,
        ⟨true, true, false, 10, 0, true, some 7⟩].getD 0 empty_handle ∧
    (process_timers 50
        ⟨[⟨true, true, false, 10, 0, true, none⟩,
          ⟨true, true, false, 10, 0, true, some 7⟩], 0⟩).2 ≠ none :=
  ⟨(process_timers_skips_empty_callback 50
      ⟨[⟨true, true, false, 10, 0, true, none⟩,
        ⟨true, true, false, 10, 0, true, some 7⟩], 0⟩ (by decide) 0
      (by decide)).1,
   (process_timers_skips_empty_callback 50
      ⟨[⟨true, true, false, 10, 0, true, none⟩,
        ⟨true, true, false, 10, 0, true, some 7⟩], 0⟩ (by decide) 0
      (by decide)).2.2 ⟨1, by decide, by decide⟩⟩

/-! ### Claim C3 — exact periodic firing ticks -/

theorem replicate_getD (n k : Nat) (x : timer_handle) :
    (List.replicate n x).getD k x = x := by
  by_cases h : k < n
  · rw [List.getD_eq_getElem _ _ (by simpa using h)]
    simp
  · rw [List.getD_eq_default _ _ (by simpa using h)]

theorem timer_due_empty (now : Nat) :
    timer_due now empty_handle = false := rfl

theorem c3_pool_getD_zero (s : Nat) :
    (c3_pool s).getD 0 empty_handle = c3_slot s := rfl

theorem c3_pool_length (s : Nat) : (c3_pool s).length = 10 := rfl

theorem c3_pool_others (now s : Nat) :
    ∀ k, k < (c3_pool s).length → k ≠ 0 →
      timer_due now ((c3_pool s).getD k empty_handle) = false := by
  intro k _ hne
  cases k with
  | zero => exact absurd rfl hne
  | succ k2 =>
    have hg : (c3_pool s).getD (k2 + 1) empty_handle = empty_handle := by
      show (c3_slot s :: List.replicate 9 empty_handle).getD (k2 + 1)
        empty_handle = empty_handle
      rw [List.getD_cons_succ]
      exact replicate_getD 9 k2 empty_handle
    rw [hg]
    rfl

theorem wsub_mod (x y : Nat) (h : y ≤ x) :
    wsub (x % M32) (y % M32) = (x - y) % M32 := by
  simp only [wsub, M32]
  omega

theorem c3_slot_due_iff (T : Nat) :
    (timer_due ((T + 1) % M32) (c3_slot ((30 * (T / 30)) % M32)) = true) ↔
      T % 30 = 29 := by
  have hle : 30 * (T / 30) ≤ T + 1 := by omega
  have h1 : wsub ((T + 1) % M32) ((30 * (T / 30)) % M32) = T % 30 + 1 := by
    rw [wsub_mod _ _ hle]
    have h2 : T + 1 - 30 * (T / 30) = T % 30 + 1 := by omega
    rw [h2]
    apply Nat.mod_eq_of_lt
    simp only [M32]
    omega
  have h30 : (30 : Nat) % M32 = 30 := by simp only [M32]
  simp only [timer_due, c3_slot, Bool.and_eq_true, decide_eq_true_eq,
    Option.isSome_some, h1, h30, and_true, true_and]
  omega

theorem c3_cursor_lt (T : Nat) : c3_cursor T < 10 := by
  unfold c3_cursor
  split <;> omega

/-- The inductive invariant of the C3 experiment: after `T` ticks the
clock reads `T mod 2^32`, the periodic slot's elapsed tracker starts at
the last firing tick `30 * (T / 30)`, the cursor is 0 before the first
firing and 1 after, and the callback has been invoked `T / 30` times. -/
theorem c3_invariant (T : Nat) :
    c3_run T =
      ((T % M32, ⟨c3_pool ((30 * (T / 30)) % M32), c3_cursor T⟩), T / 30) := by
  induction T with
  | zero => decide
  | succ T ih =>
    have hstep : c3_run (T + 1) = clock_tick_process (c3_run T) := rfl
    rw [hstep, ih]
    unfold clock_tick_process
    simp only
    have hclk : (T % M32 + 1) % M32 = (T + 1) % M32 := Nat.mod_add_mod T M32 1
    rw [hclk]
    by_cases hdue : T % 30 = 29
    · have hfire : process_timers ((T + 1) % M32)
          ⟨c3_pool ((30 * (T / 30)) % M32), c3_cursor T⟩ =
          (⟨c3_pool ((T + 1) % M32), 1⟩, some (0, 0)) := by
        have h := @process_timers_unique_due ((T + 1) % M32)
          ⟨c3_pool ((30 * (T / 30)) % M32), c3_cursor T⟩ 0
          (by rw [c3_pool_length]; exact c3_cursor_lt T)
          (by rw [c3_pool_length]; omega)
          (by rw [c3_pool_getD_zero]; exact (c3_slot_due_iff T).mpr hdue)
          (c3_pool_others ((T + 1) % M32) ((30 * (T / 30)) % M32))
        rw [h]
        rw [c3_pool_getD_zero]
        have hfh : fire_handle ((T + 1) % M32)
            (c3_slot ((30 * (T / 30)) % M32)) = c3_slot ((T + 1) % M32) := by
          simp [fire_handle, c3_slot]
        rw [hfh]
        rfl
      rw [hfire]
      have h30 : (30 * ((T + 1) / 30)) % M32 = (T + 1) % M32 := by
        have : 30 * ((T + 1) / 30) = T + 1 := by omega
        rw [this]
      have hcur : c3_cursor (T + 1) = 1 := by
        unfold c3_cursor
        have : ¬(T + 1 < 30) := by omega
        simp [this]
      have hcnt : T / 30 + 1 = (T + 1) / 30 := by omega
      rw [h30, hcur, ← hcnt]
      rfl
    · have hidle : process_timers ((T + 1) % M32)
          ⟨c3_pool ((30 * (T / 30)) % M32), c3_cursor T⟩ =
          (⟨c3_pool ((30 * (T / 30)) % M32), c3_cursor T⟩, none) := by
        apply process_timers_no_due
        · rw [c3_pool_length]; exact c3_cursor_lt T
        · intro k hk
          by_cases hk0 : k = 0
          · subst hk0
            rw [c3_pool_getD_zero]
            rcases hb : timer_due ((T + 1) % M32)
                (c3_slot ((30 * (T / 30)) % M32)) with _ | _
            · rfl
            · exact absurd ((c3_slot_due_iff T).mp hb) hdue
          · exact c3_pool_others _ _ k hk hk0
      rw [hidle]
      have h30 : (30 * ((T + 1) / 30)) % M32 = (30 * (T / 30)) % M32 := by
        have : (T + 1) / 30 = T / 30 := by omega
        rw [this]
      have hcur : c3_cursor (T + 1) = c3_cursor T := by
        unfold c3_cursor
        by_cases h1 : T < 30
        · have h2 : T + 1 < 30 := by omega
          simp [h1, h2]
        · have h2 : ¬(T + 1 < 30) := by omega
          simp [h1, h2]
      have hcnt : (T + 1) / 30 = T / 30 := by omega
      rw [h30, hcur, hcnt]
      rfl

/-- C3: for a single registered and started periodic timer of interval 30
(started at tick 0, the clock advanced one tick at a time with one
`process_timers()` call after each increment), the callback has been
invoked exactly `T / 30` times after `T` ticks, and the call at tick
`T + 1` fires exactly when `T + 1` is a multiple of 30 — so the timer
fires exactly on ticks 30, 60, 90, …: it has not fired at tick 29 and has
fired by tick 30 inclusive. -/
theorem periodic_timer_fires_exactly_on_multiples_of_30 (T : Nat) :
    (c3_run T).2 = T / 30 ∧
    (c3_run (T + 1)).2 =
      (c3_run T).2 + (if (T + 1) % 30 = 0 then 1 else 0) := by
  have h1 := c3_invariant T
  have h2 := c3_invariant (T + 1)
  constructor
  · rw [h1]
  · rw [h1, h2]
    simp only
    by_cases h : (T + 1) % 30 = 0 <;> simp [h] <;> omega

/-! ### Claim C4 — single_shot semantics -/

theorem register_first_free_eq_none {iv : Nat} {cb : Option Nat} {ss : Bool}
    {ts : List timer_handle} :
    register_first_free iv cb ss ts = none ↔ ∀ h ∈ ts, h.registered = true := by
  induction ts with
  | nil => simp [register_first_free]
  | cons hd rest ih =>
    by_cases hreg : hd.registered = true
    · simp [register_first_free, hreg, Option.map_eq_none', ih]
    · simp [register_first_free, hreg]

theorem register_first_free_some {iv : Nat} {cb : Option Nat} {ss : Bool} :
    ∀ {ts : List timer_handle} {i : Nat} {ts2 : List timer_handle},
      register_first_free iv cb ss ts = some (i, ts2) →
      i < ts.length ∧ (ts.getD i empty_handle).registered = false ∧
      (∀ k < i, (ts.getD k empty_handle).registered = true) ∧
      ts2 = ts.set i
        { ts.getD i empty_handle with
            callback := cb
            interval := iv
            single_shot := ss
            registered := true } := by
  intro ts
  induction ts with
  | nil => intro i ts2 h; simp [register_first_free] at h
  | cons hd rest ih =>
    intro i ts2 h
    by_cases hreg : hd.registered = true
    · simp only [register_first_free, if_pos hreg, Option.map_eq_some'] at h
      obtain ⟨⟨i2, ts3⟩, hrec, heq⟩ := h
      simp only [Prod.mk.injEq] at heq
      obtain ⟨hi, hts⟩ := heq
      subst hi
      subst hts
      obtain ⟨hlt, hfree, hfirst, hset⟩ := ih hrec
      refine ⟨by simp; omega, by simpa using hfree, ?_, ?_⟩
      · intro k hk
        cases k with
        | zero => simpa using hreg
        | succ k2 => simpa using hfirst k2 (by omega)
      · simp only [List.getD_cons_succ, List.set_cons_succ, hset]
    · simp only [register_first_free, if_neg hreg, Option.some.injEq,
        Prod.mk.injEq] at h
      obtain ⟨hi, hts⟩ := h
      subst hi
      subst hts
      refine ⟨by simp, by simpa using hreg, by omega, by simp⟩

theorem getD_set_self {l : List timer_handle} {i : Nat} (hi : i < l.length)
    (v : timer_handle) : (l.set i v).getD i empty_handle = v := by
  rw [List.getD_eq_getElem _ _ (by simpa using hi)]
  exact List.getElem_set_self ..

theorem c4_others_not_due (now : Nat) (x : timer_handle) :
    ∀ k, k < (x :: List.replicate 9 empty_handle : List timer_handle).length →
      k ≠ 0 →
      timer_due now
        ((x :: List.replicate 9 empty_handle).getD k empty_handle) = false := by
  intro k _ hne
  cases k with
  | zero => exact absurd rfl hne
  | succ k2 =>
    rw [List.getD_cons_succ, replicate_getD 9 k2 empty_handle]
    rfl

theorem c4_live_due_iff (T : Nat) (hT : T < 50) :
    (timer_due ((T + 1) % M32) c4_live_slot = true) ↔ T = 49 := by
  have hw : wsub ((T + 1) % M32) 0 = T + 1 := by
    simp only [wsub, M32]
    omega
  have h50 : (50 : Nat) % M32 = 50 := by simp only [M32]
  simp only [timer_due, c4_live_slot, Bool.and_eq_true, decide_eq_true_eq,
    Option.isSome_some, hw, h50, and_true, true_and]
  omega

/-- The inductive invariant of the C4 experiment: the single-shot slot is
live (active, elapsed tracker untouched) with no firing up to tick 49; at
tick 50 it fires once and is freed; from then on the pool is dead and the
count stays 1. -/
theorem c4_invariant (T : Nat) :
    c4_run T =
      if T < 50 then
        ((T % M32, ⟨c4_live_slot :: List.replicate 9 empty_handle, 0⟩), 0)
      else
        ((T % M32, ⟨c4_dead_slot :: List.replicate 9 empty_handle, 1⟩), 1) := by
  induction T with
  | zero => decide
  | succ T ih =>
    have hstep : c4_run (T + 1) = clock_tick_process (c4_run T) := rfl
    rw [hstep, ih]
    by_cases h1 : T < 50
    · rw [if_pos h1]
      by_cases h2 : T = 49
      · subst h2
        decide
      · rw [if_pos (by omega : T + 1 < 50)]
        unfold clock_tick_process
        simp only
        have hclk : (T % M32 + 1) % M32 = (T + 1) % M32 :=
          Nat.mod_add_mod T M32 1
        rw [hclk]
        have hidle : process_timers ((T + 1) % M32)
            ⟨c4_live_slot :: List.replicate 9 empty_handle, 0⟩ =
            (⟨c4_live_slot :: List.replicate 9 empty_handle, 0⟩, none) := by
          apply process_timers_no_due (by simp)
          intro k hk
          by_cases hk0 : k = 0
          · subst hk0
            rcases hb : timer_due ((T + 1) % M32)
                ((c4_live_slot :: List.replicate 9 empty_handle).getD 0
                  empty_handle) with _ | _
            · rfl
            · rw [List.getD_cons_zero] at hb
              exact absurd ((c4_live_due_iff T h1).mp hb) h2
          · exact c4_others_not_due _ _ k hk hk0
        rw [hidle]
        rfl
    · rw [if_neg h1, if_neg (by omega : ¬(T + 1 < 50))]
      unfold clock_tick_process
      simp only
      have hclk : (T % M32 + 1) % M32 = (T + 1) % M32 :=
        Nat.mod_add_mod T M32 1
      rw [hclk]
      have hidle : process_timers ((T + 1) % M32)
          ⟨c4_dead_slot :: List.replicate 9 empty_handle, 1⟩ =
          (⟨c4_dead_slot :: List.replicate 9 empty_handle, 1⟩, none) := by
        apply process_timers_no_due (by simp)
        intro k hk
        by_cases hk0 : k = 0
        · subst hk0
          rw [List.getD_cons_zero]
          rfl
        · exact c4_others_not_due _ _ k hk hk0
      rw [hidle]
      rfl

/-- C4, counterexample to the claim as stated: `single_shot` does *not*
start the slot's elapsed tracker.  Invoked at clock tick 50 on a fresh
pool, it leaves the tracker at its default (start point 0, not running),
so the very next `process_timers()` call — zero ticks after registration —
already fires the timer, instead of measuring the 50-tick interval from
the moment of registration. -/
theorem single_shot_claim_counterexample :
    (timer_single_shot (List.replicate 10 empty_handle) 50 (some 0)).1
      = true ∧
    ((timer_single_shot (List.replicate 10 empty_handle) 50
        (some 0)).2.getD 0 empty_handle).elapsed_active = false ∧
    ((timer_single_shot (List.replicate 10 empty_handle) 50
        (some 0)).2.getD 0 empty_handle).elapsed_start = 0 ∧
    (process_timers 50
        ⟨(timer_single_shot (List.replicate 10 empty_handle) 50
          (some 0)).2, 0⟩).2 = some (0, 0) := by
  decide

/-- C4 (amended): `single_shot(interval, callback)` registers through the
same path as `register_timer` (`registerTimerImpl`): it succeeds exactly
when a free slot exists, occupies the first free slot, marks it active and
single-shot with the stored interval and callback, **leaves the slot's
elapsed tracker untouched** (the interval is measured from the tracker's
default/last-reset start point, not from the moment of registration), and
returns whether registration succeeded; such a timer fires exactly once:
in the tick-by-tick experiment with interval 50 started at tick 0 the
invocation count is 0 before tick 50 and stays exactly 1 for all later
ticks, no matter how many further ticks and `process_timers()` calls
occur. -/
theorem single_shot_contract_and_fires_once :
    (∀ ts iv cb, ts.length ≤ empty_timer_id →
      ((timer_single_shot ts iv cb).1 = true ↔
        ∃ h ∈ ts, h.registered = false)) ∧
    (∀ ts iv cb, ts.length ≤ empty_timer_id →
      (timer_single_shot ts iv cb).1 = true →
      ∃ i, i < ts.length ∧ (ts.getD i empty_handle).registered = false ∧
        (∀ k < i, (ts.getD k empty_handle).registered = true) ∧
        (timer_single_shot ts iv cb).2 = ts.set i
          { ts.getD i empty_handle with
              callback := cb
              interval := iv
              single_shot := true
              registered := true
              active := true }) ∧
    (∀ T, (c4_run T).2 = if T < 50 then 0 else 1) := by
  have hmain : ∀ (ts : List timer_handle) (iv : Nat) (cb : Option Nat),
      ts.length ≤ empty_timer_id →
      ((timer_single_shot ts iv cb).1 = true ↔
        ∃ h ∈ ts, h.registered = false) ∧
      ((timer_single_shot ts iv cb).1 = true →
        ∃ i, i < ts.length ∧ (ts.getD i empty_handle).registered = false ∧
          (∀ k < i, (ts.getD k empty_handle).registered = true) ∧
          (timer_single_shot ts iv cb).2 = ts.set i
            { ts.getD i empty_handle with
                callback := cb
                interval := iv
                single_shot := true
                registered := true
                active := true }) := by
    intro ts iv cb hlen
    rcases hreg : register_first_free iv cb true ts with _ | p
    · have hall := register_first_free_eq_none.mp hreg
      have hfail : timer_single_shot ts iv cb = (false, ts) := by
        simp [timer_single_shot, registerTimerImpl, hreg]
      rw [hfail]
      constructor
      · simp only [Bool.false_eq_true, false_iff, not_exists]
        intro h hmem
        have hh := hall h hmem.1
        rw [hh] at hmem
        simpa using hmem.2
      · intro hcontra
        cases hcontra
    · obtain ⟨i, ts2⟩ := p
      obtain ⟨hlt, hfree, hfirst, hset⟩ := register_first_free_some hreg
      have hid : i ≠ empty_timer_id := by omega
      have hok : timer_single_shot ts iv cb =
          (true, ts2.set i { get_handle ts2 i with active := true }) := by
        simp [timer_single_shot, registerTimerImpl, hreg, hid]
      have hget : get_handle ts2 i =
          { ts.getD i empty_handle with
              callback := cb
              interval := iv
              single_shot := true
              registered := true } := by
        have hlen2 : i < ts2.length := by
          rw [hset, List.length_set]
          exact hlt
        rw [get_handle, if_pos hlen2, hset, getD_set_self hlt]
      constructor
      · rw [hok]
        simp only [true_iff]
        refine ⟨ts.getD i empty_handle, ?_, hfree⟩
        rw [List.getD_eq_getElem _ _ hlt]
        exact List.getElem_mem hlt
      · intro _
        refine ⟨i, hlt, hfree, hfirst, ?_⟩
        rw [hok]
        simp only
        rw [hget, hset, List.set_set]
  refine ⟨fun ts iv cb h => (hmain ts iv cb h).1,
    fun ts iv cb h => (hmain ts iv cb h).2, ?_⟩
  intro T
  rw [c4_invariant T]
  by_cases h : T < 50 <;> simp [h]

/-- Witness for C4 (amended): fresh 10-slot pool, interval 50, callback 0;
and the experiment count at tick 250 (200 ticks past the firing). -/
theorem single_shot_contract_and_fires_once_witness :
    ((timer_single_shot (List.replicate 10 empty_handle) 50 (some 0)).1
        = true ↔
      ∃ h ∈ (List.replicate 10 empty_handle : List timer_handle),
        h.registered = false) ∧
    (∃ i, i < (List.replicate 10 empty_handle : List timer_handle).length ∧
      ((List.replicate 10 empty_handle : List timer_handle).getD i
        empty_handle).registered = false ∧
      (∀ k < i, ((List.replicate 10 empty_handle :
        List timer_handle).getD k empty_handle).registered = true) ∧
      (timer_single_shot (List.replicate 10 empty_handle) 50 (some 0)).2 =
        (List.replicate 10 empty_handle).set i
          { (List.replicate 10 empty_handle : List timer_handle).getD i
              empty_handle with
              callback := some 0
              interval := 50
              single_shot := true
              registered := true
              active := true }) ∧
    (c4_run 250).2 = if 250 < 50 then 0 else 1 :=
  ⟨single_shot_contract_and_fires_once.1 (List.replicate 10 empty_handle)
      50 (some 0) (by decide),
   single_shot_contract_and_fires_once.2.1 (List.replicate 10 empty_handle)
      50 (some 0) (by decide) (by decide),
   single_shot_contract_and_fires_once.2.2 250⟩

/-! ### Claim C8 — capacity boundary of the event queue -/

theorem add_mod_inj {n f i j : Nat} (hi : i < n) (hj : j < n)
    (h : (f + i) % n = (f + j) % n) : i = j := by
  have h2 : i ≡ j [MOD n] := Nat.ModEq.add_left_cancel' f h
  have h3 : i % n = j % n := h2
  rwa [Nat.mod_eq_of_lt hi, Nat.mod_eq_of_lt hj] at h3

theorem cb_increment_eq_mod {n c : Nat} (hc : c < n) :
    cb_increment n c = (c + 1) % n := by
  unfold cb_increment
  by_cases h : c + 1 = n
  · simp [h, Nat.mod_self]
  · have hlt : c + 1 < n := by omega
    simp [h, Nat.mod_eq_of_lt hlt]

/-- A successful `push_back` on a well-formed non-full buffer: the new
element lands in cell `last_`, the `last_` index advances with wrap, and
the stored contents grow by exactly that element at the back. -/
theorem push_back_spec {α : Type} {n : Nat} (v : α) (b : circular_buffer α n)
    (hf : b.first < n) (hl : b.last = (b.first + b.size) % n)
    (hs : b.size < n) :
    push_back v b =
      (⟨fun i => if i = b.last then v else b.data i, b.first,
        (b.first + (b.size + 1)) % n, b.size + 1⟩, true) ∧
    cb_toList (push_back v b).1 = cb_toList b ++ [v] := by
  have hn : 0 < n := by omega
  have hlast_lt : b.last < n := by rw [hl]; exact Nat.mod_lt _ hn
  have hne : ¬(b.size = n) := by omega
  have hinc : cb_increment n b.last = (b.first + (b.size + 1)) % n := by
    rw [cb_increment_eq_mod hlast_lt, hl, Nat.mod_add_mod, Nat.add_assoc]
  have heq : push_back v b =
      (⟨fun i => if i = b.last then v else b.data i, b.first,
        (b.first + (b.size + 1)) % n, b.size + 1⟩, true) := by
    unfold push_back
    rw [if_neg hne, hinc]
  refine ⟨heq, ?_⟩
  rw [heq]
  simp only [cb_toList, List.range_succ, List.map_append, List.map_cons,
    List.map_nil]
  congr 1
  · apply List.map_congr_left
    intro i hi
    have hilt : i < b.size := List.mem_range.mp hi
    have hneq : (b.first + i) % n ≠ b.last := by
      rw [hl]
      intro hcontra
      have := add_mod_inj (by omega) (by omega) hcontra
      omega
    simp [hneq]
  · have hpos : (b.first + b.size) % n = b.last := hl.symm
    simp [hpos]

/-- Pushing a whole list into a well-formed buffer with enough room: every
push succeeds and the contents are appended in order. -/
theorem push_all_spec {α : Type} {n : Nat} :
    ∀ (vs : List α) (b : circular_buffer α n),
      b.first < n → b.last = (b.first + b.size) % n →
      b.size + vs.length ≤ n →
      (∀ ok ∈ (push_all b vs).2, ok = true) ∧
      (push_all b vs).1.first = b.first ∧
      (push_all b vs).1.last = (b.first + (b.size + vs.length)) % n ∧
      (push_all b vs).1.size = b.size + vs.length ∧
      cb_toList (push_all b vs).1 = cb_toList b ++ vs := by
  intro vs
  induction vs with
  | nil =>
    intro b hf hl _
    refine ⟨by simp [push_all], rfl, by simpa [push_all] using hl, rfl,
      by simp [push_all]⟩
  | cons v rest ih =>
    intro b hf hl hle
    have hs : b.size < n := by
      simp only [List.length_cons] at hle
      omega
    obtain ⟨heq, htl⟩ := push_back_spec v b hf hl hs
    set B : circular_buffer α n :=
      ⟨fun i => if i = b.last then v else b.data i, b.first,
        (b.first + (b.size + 1)) % n, b.size + 1⟩ with hB
    have hstep : push_all b (v :: rest) =
        ((push_all B rest).1, true :: (push_all B rest).2) := by
      show ((push_all (push_back v b).1 rest).1,
        (push_back v b).2 :: (push_all (push_back v b).1 rest).2) = _
      rw [heq]
    have htlB : cb_toList B = cb_toList b ++ [v] := by
      rw [heq] at htl
      exact htl
    obtain ⟨ih1, ih2, ih3, ih4, ih5⟩ := ih B hf rfl
      (by simp only [List.length_cons] at hle; simp [hB]; omega)
    rw [hstep]
    refine ⟨?_, ih2, ?_, ?_, ?_⟩
    · intro ok hok
      rcases List.mem_cons.mp hok with h1 | h1
      · exact h1
      · exact ih1 ok h1
    · rw [ih3]
      simp only [hB, List.length_cons]
      congr 1
      omega
    · rw [ih4]
      simp only [hB, List.length_cons]
      omega
    · rw [ih5, htlB, List.append_assoc]
      rfl

/-- C8: for an event queue of capacity `C` (the event loop's bounded
circular buffer), the first `C` pushes from empty all succeed, leaving
exactly the pushed contents; the `(C+1)`-th push (no intervening pops)
returns `false` and leaves the stored contents and the size — indeed the
whole buffer — unchanged, both through `circular_buffer::push_back` and
through the delegating `event_loop::push`; popping from an empty queue
fails and leaves the state unchanged. -/
theorem event_queue_capacity_boundary (α : Type) (n : Nat) (dflt : α)
    (hn : 0 < n) (vs : List α) (hlen : vs.length = n) (w : α) :
    (∀ ok ∈ (push_all (cb_init α n dflt) vs).2, ok = true) ∧
    cb_toList (push_all (cb_init α n dflt) vs).1 = vs ∧
    (push_all (cb_init α n dflt) vs).1.size = n ∧
    push_back w (push_all (cb_init α n dflt) vs).1 =
      ((push_all (cb_init α n dflt) vs).1, false) ∧
    el_push w ⟨(push_all (cb_init α n dflt) vs).1⟩ =
      (⟨(push_all (cb_init α n dflt) vs).1⟩, false) ∧
    pop_front (cb_init α n dflt) = (cb_init α n dflt, false) := by
  have h0 : (cb_init α n dflt).first < n := hn
  have hl0 : (cb_init α n dflt).last =
      ((cb_init α n dflt).first + (cb_init α n dflt).size) % n := by
    simp [cb_init]
  have hle : (cb_init α n dflt).size + vs.length ≤ n := by
    simp [cb_init, hlen]
  obtain ⟨h1, h2, h3, h4, h5⟩ := push_all_spec vs (cb_init α n dflt) h0 hl0 hle
  have hsize : (push_all (cb_init α n dflt) vs).1.size = n := by
    rw [h4]
    simp [cb_init, hlen]
  have hfull : push_back w (push_all (cb_init α n dflt) vs).1 =
      ((push_all (cb_init α n dflt) vs).1, false) := by
    unfold push_back
    rw [if_pos hsize]
  refine ⟨h1, ?_, hsize, hfull, ?_, rfl⟩
  · rw [h5]
    simp [cb_toList, cb_init]
  · have hdel : el_push w
        (⟨(push_all (cb_init α n dflt) vs).1⟩ : event_loop α n) =
        (⟨(push_back w (push_all (cb_init α n dflt) vs).1).1⟩,
          (push_back w (push_all (cb_init α n dflt) vs).1).2) := rfl
    rw [hdel, hfull]

/-- Witness for C8: a queue of capacity 3, pushing `[4, 5, 6]` then one
more element. -/
theorem event_queue_capacity_boundary_witness :
    (∀ ok ∈ (push_all (cb_init Nat 3 0) [4, 5, 6]).2, ok = true) ∧
    cb_toList (push_all (cb_init Nat 3 0) [4, 5, 6]).1 = [4, 5, 6] ∧
    (push_all (cb_init Nat 3 0) [4, 5, 6]).1.size = 3 ∧
    push_back 9 (push_all (cb_init Nat 3 0) [4, 5, 6]).1 =
      ((push_all (cb_init Nat 3 0) [4, 5, 6]).1, false) ∧
    el_push 9 ⟨(push_all (cb_init Nat 3 0) [4, 5, 6]).1⟩ =
      (⟨(push_all (cb_init Nat 3 0) [4, 5, 6]).1⟩, false) ∧
    pop_front (cb_init Nat 3 0) = (cb_init Nat 3 0, false) :=
  event_queue_capacity_boundary Nat 3 0 (by decide) [4, 5, 6] (by decide) 9

end Elib
